import Mathlib

/-!
Verification of the normalization core of the Procore submittal/RFI dashboard
(src/procore-dashboard.py).  Tables are shallowly embedded as ordered lists of
named columns of cells; the normalization functions (column mapping, status
classification, contractor derivation, days-open computation, overdue
evaluation) are translated from the source.  The current time, which the
source reads from the clock, is passed as an explicit integer day count.
-/

set_option maxRecDepth 10000

/-- A single table cell: missing (NaN/NaT), a string, an integer, a parsed
date (encoded as days since the epoch), or a boolean. -/
inductive Cell where
  | na
  | str (s : String)
  | int (n : Int)
  | date (d : Int)
  | bool (b : Bool)
deriving DecidableEq

/-- A table is an ordered list of labelled columns (the pandas DataFrame of
the source, with each column a list of cells indexed by row). -/
abbrev Table := List (String × List Cell)

-- ============================================================
-- String helpers (kernel-evaluable models of str.strip, str.lower, etc.)
-- ============================================================

/-- Whitespace characters stripped by str.strip(). -/
def isSpaceChar (c : Char) : Bool :=
  c = ' ' ∨ c = '\t' ∨ c = '\n' ∨ c = '\r' ∨ c = '\x0b' ∨ c = '\x0c'

/-- Model of str.strip(). -/
def trimStr (s : String) : String :=
  String.mk (((s.data.dropWhile isSpaceChar).reverse.dropWhile isSpaceChar).reverse)

/-- Model of str.lower() (ASCII letters, as all the dictionary keys are ASCII). -/
def lowerStr (s : String) : String :=
  String.mk (s.data.map Char.toLower)

/-- Split a character list at delimiter characters satisfying p. -/
def splitPred (p : Char → Bool) : List Char → List Char → List String
  | acc, [] => [String.mk acc.reverse]
  | acc, c :: rest =>
      if p c then String.mk acc.reverse :: splitPred p [] rest
      else splitPred p (c :: acc) rest

/-- Does pat occur at the head of l? -/
def matchAt : List Char → List Char → Bool
  | [], _ => true
  | _ :: _, [] => false
  | p :: ps, c :: cs => p == c && matchAt ps cs

/-- Model of the python substring test (pat in s). -/
def strHasSub (s pat : String) : Bool :=
  (List.range (s.data.length + 1)).any (fun i => matchAt pat.data (s.data.drop i))

/-- Parse a nonempty all-digit string. -/
def natOfDigits : Nat → List Char → Option Nat
  | acc, [] => some acc
  | acc, c :: rest =>
      if c.isDigit then natOfDigits (acc * 10 + (c.toNat - 48)) rest else none

def parseNatStr (s : String) : Option Nat :=
  match s.data with
  | [] => none
  | l => natOfDigits 0 l

/-- Parse an optionally negated integer string (the integer fragment of
pd.to_numeric). -/
def parseIntStr (s : String) : Option Int :=
  match s.data with
  | '-' :: rest => (natOfDigits 0 rest).bind (fun n => if rest = [] then none else some (-(n : Int)))
  | _ => (parseNatStr s).map (fun n => (n : Int))

/-- Comma-separated join, as str.join. -/
def joinWith (sep : String) : List String → String
  | [] => ""
  | [x] => x
  | x :: xs => x ++ sep ++ joinWith sep xs

/-- Insertion sort on strings (python sorted, code-point lexicographic). -/
def insSorted (x : String) : List String → List String
  | [] => [x]
  | y :: ys => if x ≤ y then x :: y :: ys else y :: insSorted x ys

def sortStrings : List String → List String
  | [] => []
  | x :: xs => insSorted x (sortStrings xs)

/-- Add an element to a set kept as a duplicate-free list (python set.add). -/
def insertSet (l : List String) (x : String) : List String :=
  if x ∈ l then l else l ++ [x]

/-- Model of python str() on a cell (pd.Series.astype(str)): NaN prints as
"nan", booleans as "True"/"False"; the exact rendering of parsed dates is
irrelevant downstream (it is never in any keyword set) and is modelled by the
decimal day count. -/
def cellToStr : Cell → String
  | .na => "nan"
  | .str s => s
  | .int n => toString n
  | .date d => toString d
  | .bool b => if b then "True" else "False"

-- ============================================================
-- Table helpers
-- ============================================================

def labels (t : Table) : List String := t.map (fun c => c.1)

/-- df[name]: the first column carrying the label. -/
def getCol (t : Table) (name : String) : Option (List Cell) :=
  List.lookup name t

def hasCol (t : Table) (name : String) : Bool :=
  (getCol t name).isSome

/-- Length of the index: the length of the first column (tables are
rectangular in pandas). -/
def nRows : Table → Nat
  | [] => 0
  | c :: _ => c.2.length

/-- df[name] = vals: replace every column carrying the label, else append. -/
def setCol (t : Table) (name : String) (vals : List Cell) : Table :=
  if t.any (fun c => decide (c.1 = name)) then
    t.map (fun c => if c.1 = name then (name, vals) else c)
  else t ++ [(name, vals)]

/-- Series.dropna(). -/
def dropnaList (l : List Cell) : List Cell :=
  l.filter (fun c => decide (c ≠ Cell.na))

/-- Series.unique(): first-occurrence order, duplicates removed. -/
def uniqAux : List Cell → List Cell → List Cell
  | _, [] => []
  | seen, c :: rest =>
      if c ∈ seen then uniqAux seen rest else c :: uniqAux (c :: seen) rest

def uniqueList (l : List Cell) : List Cell := uniqAux [] l

-- ============================================================
-- EMPLOYEE → COMPANY MAPPING (src lines 121-137)
-- ============================================================

def EMPLOYEE_COMPANY_MAP : List (String × String) := [
  ("dan riske", "CIMA+"),
  ("jonathan garvey-wong", "CIMA+"),
  ("trent eklund", "SMP"),
  ("warren lesenko", "SMP"),
  ("robbie gray", "CRB"),
  ("saurav khanna", "CRB"),
  ("stephanie furukawa", "CRB"),
  ("andre-pierre ghys", "CRB"),
  ("tiffany tjong", "CRB"),
  ("gerry drouillard", "CRB"),
  ("vasyl zaiets", "API"),
  ("bernard gagnon", "API"),
  ("lesley woods", "Bird"),
  ("yvonne de la fuente", "Planworks"),
  ("andreas loutas", "Unknown")]

/-- re.search of a parenthesized nonempty group: the earliest opening paren
followed by at least one non-close character and then a close paren; returns
the group. -/
def parenSearch : List Char → Option String
  | [] => none
  | '(' :: rest =>
      let inner := rest.takeWhile (fun c => c ≠ ')')
      if inner.length ≠ 0 ∧ inner.length < rest.length then some (String.mk inner)
      else parenSearch rest
  | _ :: rest => parenSearch rest

/-- State machine for re.sub removing every parenthesized group (possibly
empty); an opening paren with no later close is kept verbatim. -/
def parenStripAux : Option (List Char) → List Char → List Char
  | none, [] => []
  | some buf, [] => '(' :: buf.reverse
  | none, c :: rest =>
      if c = '(' then parenStripAux (some []) rest else c :: parenStripAux none rest
  | some buf, c :: rest =>
      if c = ')' then parenStripAux none rest else parenStripAux (some (c :: buf)) rest

def parenStrip (l : List Char) : List Char := parenStripAux none l

/-- extract_companies_from_names (src lines 140-170). -/
def extract_companies_from_names (cell_value : Cell) : String :=
  if cell_value = Cell.na ∨ trimStr (cellToStr cell_value) = "" then "Unknown"
  else
    let text := cellToStr cell_value
    let parts := splitPred (fun c => c = ',' ∨ c = '\n') [] text.data
    let companies := parts.foldl (fun (companies : List String) rawPart =>
      let part := trimStr rawPart
      if part = "" then companies
      else
        match parenSearch part.data with
        | some grp => insertSet companies (trimStr grp)
        | none =>
          let clean_name := lowerStr (trimStr (String.mk (parenStrip part.data)))
          match List.lookup clean_name EMPLOYEE_COMPANY_MAP with
          | some comp => insertSet companies comp
          | none =>
            match EMPLOYEE_COMPANY_MAP.find?
                (fun p => strHasSub clean_name p.1 || strHasSub p.1 clean_name) with
            | some p => insertSet companies p.2
            | none => if clean_name ≠ "" then insertSet companies "Unknown" else companies) []
    if companies = [] then "Unknown"
    else
      let kept := if companies.length > 1 then companies.filter (fun c => decide (c ≠ "Unknown")) else companies
      joinWith ", " (sortStrings kept)

-- ============================================================
-- PROCORE COLUMN NAME MAPPING (src lines 176-238)
-- ============================================================

def SUBMITTAL_COL_MAP : List (String × String) := [
  ("number", "Submittal #"), ("#", "Submittal #"), ("submittal #", "Submittal #"),
  ("submittal number", "Submittal #"), ("no.", "Submittal #"), ("no", "Submittal #"),
  ("title", "Title"), ("description", "Title"), ("submittal title", "Title"),
  ("specification section", "Spec Section"), ("spec section", "Spec Section"),
  ("spec #", "Spec Section"), ("spec", "Spec Section"),
  ("status", "Status"), ("current status", "Status"), ("workflow status", "Status"),
  ("ball in court", "Ball in Court"), ("ball-in-court", "Ball in Court"),
  ("responsible party", "Ball in Court"), ("current ball in court", "Ball in Court"),
  ("received from", "Received From"), ("submitted by", "Received From"),
  ("created by", "Received From"), ("originator", "Received From"),
  ("distributed to", "Reviewer"), ("reviewer", "Reviewer"),
  ("approver", "Reviewer"), ("assigned to", "Reviewer"),
  ("due date", "Due Date"), ("required on site", "Due Date"),
  ("required on-site date", "Due Date"), ("date required", "Due Date"),
  ("issue date", "Due Date"), ("needed by", "Due Date"),
  ("date created", "Date Created"), ("created at", "Date Created"),
  ("created date", "Date Created"), ("creation date", "Date Created"),
  ("submit date", "Date Created"), ("submitted date", "Date Created"),
  ("submitted on", "Date Created"), ("date submitted", "Date Created"),
  ("date opened", "Date Created"), ("opened", "Date Created"),
  ("closed date", "Date Closed"), ("date closed", "Date Closed"),
  ("closed", "Date Closed"), ("closed at", "Date Closed"),
  ("date returned", "Date Closed"), ("returned date", "Date Closed"),
  ("contractor", "Contractor"), ("company", "Contractor"),
  ("responsible contractor", "Contractor"), ("subcontractor", "Contractor"),
  ("trade", "Contractor"), ("vendor", "Contractor"),
  ("overdue", "Procore Overdue"),
  ("days open", "Days Open"), ("age", "Days Open"), ("days", "Days Open")]

-- The source dict literal binds the key "trade" twice ("Contractor", then
-- "Discipline"); in a python dict the later binding wins, so a single entry
-- with value "Discipline" is recorded at the first insertion position.
def RFI_COL_MAP : List (String × String) := [
  ("number", "RFI #"), ("#", "RFI #"), ("rfi #", "RFI #"),
  ("rfi number", "RFI #"), ("no.", "RFI #"), ("no", "RFI #"),
  ("subject", "Subject"), ("title", "Subject"), ("description", "Subject"),
  ("question", "Subject"), ("rfi subject", "Subject"),
  ("status", "Status"), ("current status", "Status"),
  ("ball in court", "Ball in Court"), ("ball-in-court", "Ball in Court"),
  ("responsible party", "Ball in Court"), ("current ball in court", "Ball in Court"),
  ("received from", "Received From"), ("initiated by", "Received From"),
  ("created by", "Received From"), ("originator", "Received From"),
  ("assigned to", "Assigned To"), ("rfi manager", "Assigned To"),
  ("responsible", "Assigned To"),
  ("due date", "Due Date"), ("date due", "Due Date"),
  ("response due", "Due Date"), ("response due date", "Due Date"),
  ("date created", "Date Created"), ("created at", "Date Created"),
  ("created date", "Date Created"), ("creation date", "Date Created"),
  ("date initiated", "Date Created"), ("initiated date", "Date Created"),
  ("date opened", "Date Created"), ("opened", "Date Created"),
  ("closed date", "Date Closed"), ("date closed", "Date Closed"),
  ("closed", "Date Closed"), ("closed at", "Date Closed"),
  ("date answered", "Date Closed"), ("answered date", "Date Closed"),
  ("contractor", "Contractor"), ("company", "Contractor"),
  ("responsible contractor", "Contractor"), ("subcontractor", "Contractor"),
  ("trade", "Discipline"), ("vendor", "Contractor"),
  ("discipline", "Discipline"), ("category", "Discipline"),
  ("priority", "Priority"), ("urgency", "Priority"),
  ("cost impact", "Cost Impact"), ("cost code", "Cost Impact"),
  ("schedule impact", "Schedule Impact"),
  ("overdue", "Procore Overdue"),
  ("days open", "Days Open"), ("age", "Days Open"), ("days", "Days Open")]

abbrev RenameDict := List (String × String)

/-- col.strip().lower(), the key normalization of map_columns. -/
def normalizeLabel (s : String) : String := lowerStr (trimStr s)

def lookupTarget (colMap : RenameDict) (c : String) : Option String :=
  List.lookup (normalizeLabel c) colMap

/-- The loop of map_columns (src lines 243-249) building rename_dict: a
column claims its canonical target unless the target was already claimed. -/
def renameAux (colMap : RenameDict) : RenameDict → List String → RenameDict
  | acc, [] => acc
  | acc, col :: rest =>
      match lookupTarget colMap col with
      | some target =>
          if target ∈ acc.map (fun p => p.2) then renameAux colMap acc rest
          else renameAux colMap (acc ++ [(col, target)]) rest
      | none => renameAux colMap acc rest

def buildRenameDict (colMap : RenameDict) (cols : List String) : RenameDict :=
  renameAux colMap [] cols

/-- map_columns (src lines 241-251): returns the renamed table and the
applied substitutions; df.rename relabels every column whose label is a key
of the dictionary. -/
def map_columns (df : Table) (colMap : RenameDict) : Table × RenameDict :=
  let rd := buildRenameDict colMap (labels df)
  (df.map (fun c => ((List.lookup c.1 rd).getD c.1, c.2)), rd)

-- ============================================================
-- OPEN STATUS DETECTION (src lines 257-293)
-- ============================================================

def KNOWN_CLOSED_STATUSES : List String := [
  "closed", "approved", "approved as noted", "rejected", "void", "voided",
  "cancelled", "canceled", "completed", "resolved", "withdrawn"]

def KNOWN_OPEN_STATUSES : List String := [
  "open", "pending", "pending review", "pending response", "submitted",
  "in review", "draft", "revise & resubmit", "revise and resubmit",
  "resubmit", "overdue", "under review", "awaiting response"]

/-- The rows whose Status equals s, paired with their Date Closed cells
(df.loc of the mask df["Status"] == s; a missing status never equals a
non-missing s, and s is drawn from dropna). -/
def statusRows (sv dc : List Cell) (s : Cell) : List (Cell × Cell) :=
  (sv.zip dc).filter (fun p => decide (p.1 = s))

/-- How many of those rows have a non-missing Date Closed. -/
def closedCount (sv dc : List Cell) (s : Cell) : Nat :=
  ((statusRows sv dc s).filter (fun p => decide (p.2 ≠ Cell.na))).length

/-- The branch of classify_statuses deciding one distinct status value:
known-closed keyword, else known-open keyword, else the mean-of-notna
heuristic (fraction > 0.7, i.e. 10k > 7n exactly; the empty mean is NaN and
NaN > 0.7 is false), else open when no Date Closed column exists. -/
def statusIsClosed (df : Table) (s : Cell) : Bool :=
  let sl := lowerStr (trimStr (cellToStr s))
  if sl ∈ KNOWN_CLOSED_STATUSES then true
  else if sl ∈ KNOWN_OPEN_STATUSES then false
  else
    match getCol df "Date Closed", getCol df "Status" with
    | some dc, some sv => decide (7 * (statusRows sv dc s).length < 10 * closedCount sv dc s)
    | _, _ => false

/-- classify_statuses (src lines 268-293). -/
def classify_statuses (df : Table) : List Cell × List Cell :=
  match getCol df "Status" with
  | none => ([], [])
  | some vals =>
      let all := uniqueList (dropnaList vals)
      all.foldl (fun acc s =>
        if statusIsClosed df s then (acc.1, acc.2 ++ [s]) else (acc.1 ++ [s], acc.2))
        ([], [])

-- ============================================================
-- DERIVE CONTRACTOR FROM NAMES (src lines 346-369)
-- ============================================================

def KNOWN_COMPANY_TOKENS : List String := [
  "cima+", "smp", "crb", "api", "bird", "planworks", "icon electric"]

def NAME_COL_KEYWORDS : List String := [
  "ball in court", "assigned", "responsible", "reviewer",
  "received from", "created by", "submitted by", "name",
  "distributed to", "approver", "rfi manager"]

/-- Do the first 20 non-missing Contractor samples contain a known company
token?  (.str.strip().str.lower() maps non-string cells to missing, which
cannot match.) -/
def contractorLooksKnown (vals : List Cell) : Bool :=
  ((dropnaList vals).take 20).any (fun c =>
    match c with
    | .str s => KNOWN_COMPANY_TOKENS.any (fun k => strHasSub (lowerStr (trimStr s)) k)
    | _ => false)

/-- derive_contractor_column: keep a recognizable Contractor column,
otherwise resolve the first assignment-like column through the name
resolver, otherwise default to "Unknown". -/
def derive_contractor_column (df : Table) : Table :=
  let keep := match getCol df "Contractor" with
    | some vals => contractorLooksKnown vals
    | none => false
  if keep then df
  else
    let name_cols := (labels df).filter
      (fun col => NAME_COL_KEYWORDS.any (fun kw => strHasSub (lowerStr col) kw))
    match name_cols with
    | source :: _ =>
        match getCol df source with
        | some vals =>
            setCol df "Contractor" (vals.map (fun c => Cell.str (extract_companies_from_names c)))
        | none => df
    | [] =>
        if hasCol df "Contractor" then df
        else setCol df "Contractor" (List.replicate (nRows df) (Cell.str "Unknown"))

-- ============================================================
-- FULL NORMALIZATION (src lines 375-419)
-- ============================================================

/-- Days of the proleptic Gregorian calendar since 1970-01-01. -/
def daysFromCivil (y m d : Nat) : Int :=
  let yy : Int := if m ≤ 2 then (y : Int) - 1 else (y : Int)
  let era : Int := (if 0 ≤ yy then yy else yy - 399) / 400
  let yoe : Int := yy - era * 400
  let mp : Int := if m ≤ 2 then (m : Int) + 9 else (m : Int) - 3
  let doy : Int := (153 * mp + 2) / 5 + (d : Int) - 1
  let doe : Int := yoe * 365 + yoe / 4 - yoe / 100 + doy
  era * 146097 + doe - 719468

/-- Model of the external pandas date parser, restricted to ISO
"YYYY-MM-DD" strings; anything else coerces to missing. -/
def parseDateStr (s : String) : Option Int :=
  match (splitPred (fun c => c = '-') [] (trimStr s).data).map parseNatStr with
  | [some y, some m, some d] =>
      if 1 ≤ m ∧ m ≤ 12 ∧ 1 ≤ d ∧ d ≤ 31 then some (daysFromCivil y m d) else none
  | _ => none

/-- pd.to_datetime with errors="coerce" on one cell. -/
def toDatetimeCell : Cell → Cell
  | .date d => .date d
  | .str s => match parseDateStr s with
      | some d => .date d
      | none => .na
  | _ => .na

/-- The date-parsing loop of normalize_columns. -/
def parseDates (df : Table) : Table :=
  ["Date Created", "Due Date", "Date Closed"].foldl (fun t col =>
    match getCol t col with
    | some vals => setCol t col (vals.map toDatetimeCell)
    | none => t) df

/-- pd.to_numeric(errors="coerce").fillna(0).astype(int) on one cell
(integer strings modelled; a float string would truncate the same way for
whole values, and such cells do not appear in the claims). -/
def toNumericIntCell : Cell → Cell
  | .int n => .int n
  | .str s => match parseIntStr (trimStr s) with
      | some n => .int n
      | none => .int 0
  | .bool b => .int (if b then 1 else 0)
  | _ => .int 0

/-- The Days Open step of normalize_columns: coerce an existing column,
else compute clip-at-zero whole days from Date Created to Date Closed
(missing close dates fall back to now), else default 0. -/
def computeDaysOpen (df : Table) (now : Int) : Table :=
  match getCol df "Days Open" with
  | some vals => setCol df "Days Open" (vals.map toNumericIntCell)
  | none =>
    match getCol df "Date Created" with
    | some created =>
        let endCol : List Cell :=
          match getCol df "Date Closed" with
          | some closed => closed.map (fun c => if c = Cell.na then Cell.date now else c)
          | none => List.replicate created.length (Cell.date now)
        let days := (endCol.zip created).map (fun p =>
          match p.1, p.2 with
          | .date e, .date c => Cell.int (max 0 (e - c))
          | _, _ => Cell.na)
        setCol df "Days Open" days
    | none => setCol df "Days Open" (List.replicate (nRows df) (Cell.int 0))

/-- The structurally-required defaults, in python dict insertion order. -/
def defaultsFor (item_type : String) : List (String × String) :=
  [("Status", "Open"), ("Contractor", "Unknown"), ("Ball in Court", "Unknown")] ++
  (if item_type = "submittal" then
    [("Submittal #", ""), ("Title", ""), ("Reviewer", ""), ("Spec Section", "")]
  else
    [("RFI #", ""), ("Subject", ""), ("Discipline", "General"), ("Priority", "Medium"),
     ("Cost Impact", "None"), ("Schedule Impact", "No")])

def applyDefaults (df : Table) (item_type : String) : Table :=
  (defaultsFor item_type).foldl (fun t p =>
    if hasCol t p.1 then t
    else setCol t p.1 (List.replicate (nRows t) (Cell.str p.2))) df

def STANDARD_BIC : List String := [
  "consultant", "contractor", "owner", "architect", "closed", "unknown", ""]

/-- The Ball in Court remapping step: when none of the first 10 non-missing
samples is a standard token, re-resolve every value through the name
resolver.  (.str.strip().str.lower() makes non-string samples missing, and a
missing sample never matches.) -/
def bicRemap (df : Table) : Table :=
  match getCol df "Ball in Court" with
  | some vals =>
      let inStd := ((dropnaList vals).take 10).any (fun c =>
        match c with
        | .str s => decide (lowerStr (trimStr s) ∈ STANDARD_BIC)
        | _ => false)
      if inStd then df
      else setCol df "Ball in Court" (vals.map (fun c => Cell.str (extract_companies_from_names c)))
  | none => df

def colMapFor (item_type : String) : RenameDict :=
  if item_type = "submittal" then SUBMITTAL_COL_MAP else RFI_COL_MAP

/-- normalize_columns (src lines 375-419), with the wall clock passed
explicitly. -/
def normalize_columns (df : Table) (item_type : String) (now : Int) : Table :=
  let df1 := (map_columns df (colMapFor item_type)).1
  let df2 := derive_contractor_column df1
  let df3 := parseDates df2
  let df4 := computeDaysOpen df3 now
  let df5 := applyDefaults df4 item_type
  bicRemap df5

-- ============================================================
-- OVERDUE CALCULATION (src lines 425-451)
-- ============================================================

def YES_VALUES : List String := ["yes", "true", "1", "overdue", "y"]

/-- df["Days Open"] > threshold on one cell (a missing value compares
false; after normalization the column is integral). -/
def cellGtInt : Cell → Int → Bool
  | .int m, t => decide (t < m)
  | _, _ => false

/-- calculate_overdue (src lines 425-451): requires the Status and
Days Open columns (the source would raise a KeyError otherwise, modelled as
none), combines the explicit flag, the threshold and the due date, and
writes the boolean column "Is Overdue". -/
def calculate_overdue (df : Table) (threshold : Int) (open_statuses : List Cell)
    (now : Int) : Option Table :=
  match getCol df "Status", getCol df "Days Open" with
  | some statusVals, some daysVals =>
      let n := nRows df
      let is_open := fun (i : Nat) => decide (statusVals.getD i Cell.na ∈ open_statuses)
      let procore_flag := fun (i : Nat) =>
        match getCol df "Procore Overdue" with
        | some pv => decide (lowerStr (trimStr (cellToStr (pv.getD i Cell.na))) ∈ YES_VALUES)
        | none => false
      let days_exceed := fun (i : Nat) => cellGtInt (daysVals.getD i Cell.na) threshold
      let past_due := fun (i : Nat) =>
        match getCol df "Due Date" with
        | some dv =>
            match dv.getD i Cell.na with
            | .date d => decide (d < now)
            | _ => false
        | none => false
      let overdueCol := (List.range n).map (fun i =>
        Cell.bool (is_open i && (procore_flag i || days_exceed i || past_due i)))
      some (setCol df "Is Overdue" overdueCol)
  | _, _ => none

-- ============================================================
-- Association-list and table lemmas
-- ============================================================

theorem lookup_mem {β : Type} : ∀ {l : List (String × β)} {k : String} {v : β},
    List.lookup k l = some v → (k, v) ∈ l
  | [], _, _, h => by simp [List.lookup] at h
  | (a, b) :: rest, k, v, h => by
      by_cases hk : k = a
      · subst hk
        simp [List.lookup] at h
        simp [h]
      · have hne : (k == a) = false := by simp [hk]
        rw [List.lookup, hne] at h
        exact List.mem_cons_of_mem _ (lookup_mem h)

theorem lookup_eq_some_of_mem {β : Type} : ∀ {l : List (String × β)} {k : String} {v : β},
    (k, v) ∈ l → (∀ e ∈ l, e.1 = k → e.2 = v) → List.lookup k l = some v
  | [], _, _, hm, _ => by simp at hm
  | (a, b) :: rest, k, v, hm, huniq => by
      by_cases hk : k = a
      · subst hk
        have : b = v := huniq (k, b) (List.mem_cons_self _ _) rfl
        subst this
        simp [List.lookup]
      · have hne : (k == a) = false := by simp [hk]
        rw [List.lookup, hne]
        have hm' : (k, v) ∈ rest := by
          rcases List.mem_cons.mp hm with h | h
          · exact absurd (congrArg Prod.fst h) hk
          · exact h
        exact lookup_eq_some_of_mem hm' (fun e he => huniq e (List.mem_cons_of_mem _ he))

theorem lookup_append_some {β : Type} : ∀ {l₁ : List (String × β)} (l₂ : List (String × β))
    {k : String} {v : β}, List.lookup k l₁ = some v → List.lookup k (l₁ ++ l₂) = some v
  | [], _, _, _, h => by simp [List.lookup] at h
  | (a, b) :: rest, l₂, k, v, h => by
      cases hbe : (k == a) with
      | true => rw [List.cons_append, List.lookup, hbe]; rw [List.lookup, hbe] at h; exact h
      | false =>
          rw [List.cons_append, List.lookup, hbe]
          rw [List.lookup, hbe] at h
          exact lookup_append_some l₂ h

theorem lookup_append_none {β : Type} : ∀ {l₁ : List (String × β)} (l₂ : List (String × β))
    {k : String}, List.lookup k l₁ = none → List.lookup k (l₁ ++ l₂) = List.lookup k l₂
  | [], _, _, _ => by simp
  | (a, b) :: rest, l₂, k, h => by
      cases hbe : (k == a) with
      | true => rw [List.lookup, hbe] at h; exact absurd h (by simp)
      | false =>
          rw [List.lookup, hbe] at h
          rw [List.cons_append, List.lookup, hbe]
          exact lookup_append_none l₂ h

theorem lookup_none_of_any_false {β : Type} : ∀ {l : List (String × β)} {k : String},
    l.any (fun c => decide (c.1 = k)) = false → List.lookup k l = none
  | [], _, _ => rfl
  | (a, b) :: rest, k, h => by
      simp only [List.any_cons, Bool.or_eq_false_iff, decide_eq_false_iff_not] at h
      have hne : (k == a) = false := by
        simp only [beq_eq_false_iff_ne, ne_eq]
        exact fun hh => h.1 hh.symm
      rw [List.lookup, hne]
      exact lookup_none_of_any_false (by simpa using h.2)

theorem lookup_map_replace_self : ∀ (t : Table) (n : String) (v : List Cell),
    t.any (fun c => decide (c.1 = n)) = true →
    List.lookup n (t.map (fun c => if c.1 = n then (n, v) else c)) = some v
  | [], n, v, h => by simp at h
  | (a, b) :: rest, n, v, h => by
      simp only [List.map_cons]
      dsimp only
      by_cases ha : a = n
      · rw [if_pos ha]
        have hbe : (n == n) = true := by simp
        rw [List.lookup, hbe]
      · rw [if_neg ha]
        have hne : (n == a) = false := by
          simp only [beq_eq_false_iff_ne, ne_eq]
          exact fun hh => ha hh.symm
        rw [List.lookup, hne]
        have h2 : rest.any (fun c => decide (c.1 = n)) = true := by
          simp only [List.any_cons, Bool.or_eq_true, decide_eq_true_eq] at h
          rcases h with h | h
          · exact absurd h ha
          · simpa using h
        exact lookup_map_replace_self rest n v h2

theorem lookup_map_replace_ne : ∀ (t : Table) (n m : String) (v : List Cell), m ≠ n →
    List.lookup m (t.map (fun c => if c.1 = n then (n, v) else c)) = List.lookup m t
  | [], _, _, _, _ => by simp
  | (a, b) :: rest, n, m, v, hmn => by
      simp only [List.map_cons]
      dsimp only
      by_cases ha : a = n
      · rw [if_pos ha]
        have h1 : (m == n) = false := by simp [hmn]
        have h2 : (m == a) = false := by rw [ha]; exact h1
        rw [List.lookup, h1, List.lookup, h2]
        exact lookup_map_replace_ne rest n m v hmn
      · rw [if_neg ha]
        rw [List.lookup, List.lookup]
        cases hbe : (m == a) with
        | true => rfl
        | false => exact lookup_map_replace_ne rest n m v hmn

theorem getCol_setCol_self (t : Table) (n : String) (v : List Cell) :
    getCol (setCol t n v) n = some v := by
  unfold setCol getCol
  split
  · exact lookup_map_replace_self t n v (by assumption)
  · rename_i hany
    rw [lookup_append_none _ (lookup_none_of_any_false (Bool.of_not_eq_true hany))]
    have hbe : (n == n) = true := by simp
    rw [List.lookup, hbe]

theorem getCol_setCol_ne (t : Table) (n m : String) (v : List Cell) (hmn : m ≠ n) :
    getCol (setCol t n v) m = getCol t m := by
  unfold setCol getCol
  split
  · exact lookup_map_replace_ne t n m v hmn
  · induction t with
    | nil =>
        have h1 : (m == n) = false := by simp [hmn]
        simp [List.lookup, h1]
    | cons c rest ih =>
        obtain ⟨a, b⟩ := c
        rw [List.cons_append, List.lookup, List.lookup]
        cases hbe : (m == a) with
        | true => rfl
        | false => exact ih (by rename_i h; simp_all)

-- ============================================================
-- rename_dict lemmas (map_columns)
-- ============================================================

/-- The canonical targets already claimed in a rename dictionary. -/
def targetsOf (d : RenameDict) : List String := d.map (fun p => p.2)

theorem renameAux_acc_mem (cm : RenameDict) : ∀ (cols : List String) (acc : RenameDict)
    (e : String × String), e ∈ acc → e ∈ renameAux cm acc cols
  | [], _, _, he => he
  | col :: rest, acc, e, he => by
      cases h : lookupTarget cm col with
      | none =>
          simp only [renameAux, h]
          exact renameAux_acc_mem cm rest acc e he
      | some target =>
          simp only [renameAux, h]
          by_cases ht : target ∈ acc.map (fun p => p.2)
          · rw [if_pos ht]
            exact renameAux_acc_mem cm rest acc e he
          · rw [if_neg ht]
            exact renameAux_acc_mem cm rest _ e (List.mem_append_left _ he)

theorem renameAux_targets (cm : RenameDict) : ∀ (cols : List String) (acc : RenameDict)
    (T : String), T ∈ targetsOf (renameAux cm acc cols) ↔
      T ∈ targetsOf acc ∨ ∃ c ∈ cols, lookupTarget cm c = some T
  | [], acc, T => by simp [renameAux]
  | col :: rest, acc, T => by
      cases h : lookupTarget cm col with
      | none =>
          simp only [renameAux, h]
          rw [renameAux_targets cm rest acc T]
          constructor
          · rintro (h1 | h1)
            · exact Or.inl h1
            · exact Or.inr (by obtain ⟨c, hc, hc2⟩ := h1; exact ⟨c, List.mem_cons_of_mem _ hc, hc2⟩)
          · rintro (h1 | ⟨c, hc, hc2⟩)
            · exact Or.inl h1
            · rcases List.mem_cons.mp hc with rfl | hc'
              · rw [h] at hc2; cases hc2
              · exact Or.inr ⟨c, hc', hc2⟩
      | some target =>
          simp only [renameAux, h]
          by_cases ht : target ∈ acc.map (fun p => p.2)
          · rw [if_pos ht]
            rw [renameAux_targets cm rest acc T]
            constructor
            · rintro (h1 | h1)
              · exact Or.inl h1
              · exact Or.inr (by obtain ⟨c, hc, hc2⟩ := h1; exact ⟨c, List.mem_cons_of_mem _ hc, hc2⟩)
            · rintro (h1 | ⟨c, hc, hc2⟩)
              · exact Or.inl h1
              · rcases List.mem_cons.mp hc with rfl | hc'
                · rw [h] at hc2
                  have heq : target = T := Option.some.inj hc2
                  subst heq
                  exact Or.inl ht
                · exact Or.inr ⟨c, hc', hc2⟩
          · rw [if_neg ht]
            rw [renameAux_targets cm rest _ T]
            unfold targetsOf
            simp only [List.map_append, List.map_cons, List.map_nil, List.mem_append,
              List.mem_singleton, List.not_mem_nil, or_false]
            constructor
            · rintro ((h1 | h1) | h1)
              · exact Or.inl h1
              · subst h1
                exact Or.inr ⟨col, List.mem_cons_self _ _, h⟩
              · obtain ⟨c, hc, hc2⟩ := h1
                exact Or.inr ⟨c, List.mem_cons_of_mem _ hc, hc2⟩
            · rintro (h1 | ⟨c, hc, hc2⟩)
              · exact Or.inl (Or.inl h1)
              · rcases List.mem_cons.mp hc with rfl | hc'
                · rw [h] at hc2
                  exact Or.inl (Or.inr (Option.some.inj hc2).symm)
                · exact Or.inr ⟨c, hc', hc2⟩

theorem renameAux_entries (cm : RenameDict) : ∀ (cols : List String) (acc : RenameDict)
    (e : String × String), e ∈ renameAux cm acc cols →
      e ∈ acc ∨ (e.1 ∈ cols ∧ lookupTarget cm e.1 = some e.2)
  | [], _, _, he => Or.inl he
  | col :: rest, acc, e, he => by
      cases h : lookupTarget cm col with
      | none =>
          simp only [renameAux, h] at he
          rcases renameAux_entries cm rest acc e he with h1 | ⟨h1, h2⟩
          · exact Or.inl h1
          · exact Or.inr ⟨List.mem_cons_of_mem _ h1, h2⟩
      | some target =>
          simp only [renameAux, h] at he
          by_cases ht : target ∈ acc.map (fun p => p.2)
          · rw [if_pos ht] at he
            rcases renameAux_entries cm rest acc e he with h1 | ⟨h1, h2⟩
            · exact Or.inl h1
            · exact Or.inr ⟨List.mem_cons_of_mem _ h1, h2⟩
          · rw [if_neg ht] at he
            rcases renameAux_entries cm rest _ e he with h1 | ⟨h1, h2⟩
            · rcases List.mem_append.mp h1 with h2 | h2
              · exact Or.inl h2
              · rcases List.mem_singleton.mp h2 with rfl
                exact Or.inr ⟨List.mem_cons_self _ _, h⟩
            · exact Or.inr ⟨List.mem_cons_of_mem _ h1, h2⟩

theorem renameAux_first (cm : RenameDict) : ∀ (cols : List String) (acc : RenameDict)
    (x T : String), (x, T) ∈ renameAux cm acc cols → (x, T) ∈ acc ∨
      (T ∉ targetsOf acc ∧ ∃ P₁ P₂, cols = P₁ ++ x :: P₂ ∧
        lookupTarget cm x = some T ∧ ∀ y ∈ P₁, lookupTarget cm y ≠ some T)
  | [], _, _, _, he => Or.inl he
  | col :: rest, acc, x, T, he => by
      cases h : lookupTarget cm col with
      | none =>
          simp only [renameAux, h] at he
          rcases renameAux_first cm rest acc x T he with h1 | ⟨hT, P₁, P₂, hdec, hx, hall⟩
          · exact Or.inl h1
          · refine Or.inr ⟨hT, col :: P₁, P₂, by rw [hdec, List.cons_append], hx, ?_⟩
            intro y hy
            rcases List.mem_cons.mp hy with rfl | hy'
            · rw [h]; exact fun hc => by cases hc
            · exact hall y hy'
      | some target =>
          simp only [renameAux, h] at he
          by_cases ht : target ∈ acc.map (fun p => p.2)
          · rw [if_pos ht] at he
            rcases renameAux_first cm rest acc x T he with h1 | ⟨hT, P₁, P₂, hdec, hx, hall⟩
            · exact Or.inl h1
            · refine Or.inr ⟨hT, col :: P₁, P₂, by rw [hdec, List.cons_append], hx, ?_⟩
              intro y hy
              rcases List.mem_cons.mp hy with rfl | hy'
              · rw [h]
                intro hc
                have heq : target = T := Option.some.inj hc
                exact hT (by rw [← heq]; exact ht)
              · exact hall y hy'
          · rw [if_neg ht] at he
            rcases renameAux_first cm rest _ x T he with h1 | ⟨hT, P₁, P₂, hdec, hx, hall⟩
            · rcases List.mem_append.mp h1 with h2 | h2
              · exact Or.inl h2
              · have h3 := List.mem_singleton.mp h2
                have hxc : x = col := congrArg Prod.fst h3
                have hTt : T = target := congrArg Prod.snd h3
                subst hxc; subst hTt
                exact Or.inr ⟨ht, [], rest, rfl, h, by intro y hy; cases hy⟩
            · have hT2 : T ∉ targetsOf acc ∧ T ≠ target := by
                unfold targetsOf at hT ⊢
                simp only [List.map_append, List.map_cons, List.map_nil, List.mem_append,
                  List.mem_cons, List.not_mem_nil, or_false, not_or, List.mem_singleton] at hT
                exact ⟨hT.1, hT.2⟩
              refine Or.inr ⟨hT2.1, col :: P₁, P₂, by rw [hdec, List.cons_append], hx, ?_⟩
              intro y hy
              rcases List.mem_cons.mp hy with rfl | hy'
              · rw [h]
                intro hc
                exact hT2.2 (Option.some.inj hc).symm
              · exact hall y hy'

theorem renameAux_claim (cm : RenameDict) : ∀ (P₁ : List String) (c : String) (P₂ : List String)
    (acc : RenameDict) (T : String), lookupTarget cm c = some T →
    T ∉ targetsOf acc → (∀ y ∈ P₁, lookupTarget cm y ≠ some T) →
    (c, T) ∈ renameAux cm acc (P₁ ++ c :: P₂)
  | [], c, P₂, acc, T, hc, hT, _ => by
      rw [List.nil_append]
      simp only [renameAux, hc]
      rw [if_neg (show T ∉ List.map (fun p => p.2) acc from hT)]
      exact renameAux_acc_mem cm P₂ _ _ (List.mem_append_right _ (List.mem_singleton.mpr rfl))
  | y :: P₁, c, P₂, acc, T, hc, hT, hall => by
      rw [List.cons_append]
      cases h : lookupTarget cm y with
      | none =>
          simp only [renameAux, h]
          exact renameAux_claim cm P₁ c P₂ acc T hc hT
            (fun z hz => hall z (List.mem_cons_of_mem _ hz))
      | some ty =>
          simp only [renameAux, h]
          by_cases ht : ty ∈ acc.map (fun p => p.2)
          · rw [if_pos ht]
            exact renameAux_claim cm P₁ c P₂ acc T hc hT
              (fun z hz => hall z (List.mem_cons_of_mem _ hz))
          · rw [if_neg ht]
            have hne : T ∉ targetsOf (acc ++ [(y, ty)]) := by
              unfold targetsOf at hT ⊢
              simp only [List.map_append, List.map_cons, List.map_nil, List.mem_append,
                List.mem_cons, List.not_mem_nil, or_false, not_or, List.mem_singleton]
              refine ⟨hT, ?_⟩
              intro hTy
              exact hall y (List.mem_cons_self _ _) (by rw [h, hTy])
            exact renameAux_claim cm P₁ c P₂ _ T hc hne
              (fun z hz => hall z (List.mem_cons_of_mem _ hz))

theorem renameAux_targets_nodup (cm : RenameDict) : ∀ (cols : List String) (acc : RenameDict),
    (targetsOf acc).Nodup → (targetsOf (renameAux cm acc cols)).Nodup
  | [], _, hn => hn
  | col :: rest, acc, hn => by
      cases h : lookupTarget cm col with
      | none =>
          simp only [renameAux, h]
          exact renameAux_targets_nodup cm rest acc hn
      | some target =>
          simp only [renameAux, h]
          by_cases ht : target ∈ acc.map (fun p => p.2)
          · rw [if_pos ht]
            exact renameAux_targets_nodup cm rest acc hn
          · rw [if_neg ht]
            apply renameAux_targets_nodup cm rest
            unfold targetsOf at hn ⊢
            rw [List.map_append]
            apply List.Nodup.append hn (by simp)
            intro a ha hb
            simp only [List.map_cons, List.map_nil, List.mem_singleton] at hb
            subst hb
            exact ht ha

theorem dict_entry_target {cm : RenameDict} {cols : List String} {e : String × String}
    (h : e ∈ buildRenameDict cm cols) : e.1 ∈ cols ∧ lookupTarget cm e.1 = some e.2 := by
  rcases renameAux_entries cm cols [] e h with h1 | h1
  · cases h1
  · exact h1

theorem dict_lookup_some {cm : RenameDict} {cols : List String} {c T : String}
    (h : (c, T) ∈ buildRenameDict cm cols) :
    List.lookup c (buildRenameDict cm cols) = some T := by
  apply lookup_eq_some_of_mem h
  intro e he h1
  have h2 := (dict_entry_target he).2
  have h3 := (dict_entry_target h).2
  rw [h1] at h2
  exact Option.some.inj (h2.symm.trans h3)

theorem dict_lookup_target {cm : RenameDict} {cols : List String} {c T : String}
    (h : List.lookup c (buildRenameDict cm cols) = some T) : lookupTarget cm c = some T :=
  (dict_entry_target (lookup_mem h)).2

-- ============================================================
-- List decomposition helpers
-- ============================================================

theorem map_split {α β : Type} (f : α → β) : ∀ {l : List α} {Q₁ Q₂ : List β} {x : β},
    l.map f = Q₁ ++ x :: Q₂ → ∃ P₁ c P₂, l = P₁ ++ c :: P₂ ∧ P₁.map f = Q₁ ∧ f c = x
  | [], Q₁, Q₂, x, h => by cases Q₁ <;> simp at h
  | a :: l, Q₁, Q₂, x, h => by
      cases Q₁ with
      | nil =>
          rw [List.map_cons, List.nil_append] at h
          exact ⟨[], a, l, rfl, rfl, (List.cons.injEq _ _ _ _ ▸ h).1⟩
      | cons q Q₁ =>
          rw [List.map_cons, List.cons_append] at h
          have h1 : f a = q := (List.cons.injEq _ _ _ _ ▸ h).1
          have h2 : l.map f = Q₁ ++ x :: Q₂ := (List.cons.injEq _ _ _ _ ▸ h).2
          obtain ⟨P₁, c, P₂, hl, hm, hc⟩ := map_split f h2
          exact ⟨a :: P₁, c, P₂, by rw [hl, List.cons_append],
            by rw [List.map_cons, hm, h1], hc⟩

theorem two_split {α : Type} : ∀ {P₁ R₁ : List α} {c z : α} {P₂ R₂ : List α},
    P₁ ++ c :: P₂ = R₁ ++ z :: R₂ → c ∉ R₁ → (P₁ = R₁ ∧ c = z) ∨ z ∈ P₁
  | [], R₁, c, z, P₂, R₂, h, hc => by
      cases R₁ with
      | nil =>
          rw [List.nil_append, List.nil_append] at h
          exact Or.inl ⟨rfl, (List.cons.injEq _ _ _ _ ▸ h).1⟩
      | cons r R₁ =>
          rw [List.nil_append, List.cons_append] at h
          have h1 : c = r := (List.cons.injEq _ _ _ _ ▸ h).1
          exact absurd (h1 ▸ List.mem_cons_self r R₁) hc
  | p :: P₁, R₁, c, z, P₂, R₂, h, hc => by
      cases R₁ with
      | nil =>
          rw [List.cons_append, List.nil_append] at h
          have h1 : p = z := (List.cons.injEq _ _ _ _ ▸ h).1
          exact Or.inr (h1 ▸ List.mem_cons_self p P₁)
      | cons r R₁ =>
          rw [List.cons_append, List.cons_append] at h
          have h1 : p = r := (List.cons.injEq _ _ _ _ ▸ h).1
          have h2 : P₁ ++ c :: P₂ = R₁ ++ z :: R₂ := (List.cons.injEq _ _ _ _ ▸ h).2
          have hc' : c ∉ R₁ := fun hm => hc (List.mem_cons_of_mem _ hm)
          rcases two_split h2 hc' with ⟨hP, hcz⟩ | hz
          · exact Or.inl ⟨by rw [hP, h1], hcz⟩
          · exact Or.inr (List.mem_cons_of_mem _ hz)

theorem map_eq_self_of_forall {α : Type} (f : α → α) : ∀ {l : List α},
    (∀ x ∈ l, f x = x) → l.map f = l
  | [], _ => rfl
  | a :: l, h => by
      rw [List.map_cons, h a (List.mem_cons_self _ _),
        map_eq_self_of_forall f (fun x hx => h x (List.mem_cons_of_mem _ hx))]

-- ============================================================
-- Idempotency analysis of map_columns
-- ============================================================

/-- Structural property of a column dictionary: only the key "overdue" maps
to the canonical name "Procore Overdue", and every other canonical target
is itself a key that maps to itself.  Both source dictionaries satisfy it. -/
def goodColMap (cm : RenameDict) : Prop :=
  (∀ p ∈ cm, p.2 = "Procore Overdue" → p.1 = "overdue") ∧
  (∀ p ∈ cm, p.2 = "Procore Overdue" ∨ List.lookup (normalizeLabel p.2) cm = some p.2)

theorem goodColMap_submittal : goodColMap SUBMITTAL_COL_MAP := by
  constructor <;> decide

theorem goodColMap_rfi : goodColMap RFI_COL_MAP := by
  constructor <;> decide

/-- The output label of a column under map_columns. -/
def renamedLabel (cm : RenameDict) (cols : List String) (c : String) : String :=
  (List.lookup c (buildRenameDict cm cols)).getD c

theorem map_columns_fst (df : Table) (cm : RenameDict) :
    (map_columns df cm).1 =
      df.map (fun c => ((List.lookup c.1 (buildRenameDict cm (labels df))).getD c.1, c.2)) := rfl

theorem labels_map_columns (t : Table) (cm : RenameDict) :
    labels (map_columns t cm).1 = (labels t).map (renamedLabel cm (labels t)) := by
  unfold map_columns labels renamedLabel
  rw [List.map_map, List.map_map]
  rfl

/-- Under a good column map, when no source label normalizes to "overdue",
every entry of the rename dictionary built over the once-renamed labels is
an identity pair. -/
theorem second_dict_id (cm : RenameDict) (good : goodColMap cm) (L : List String)
    (hov : ∀ c ∈ L, normalizeLabel c ≠ "overdue") :
    ∀ e ∈ buildRenameDict cm (L.map (renamedLabel cm L)), e.1 = e.2 := by
  intro e he
  obtain ⟨x, T⟩ := e
  rcases renameAux_first cm (L.map (renamedLabel cm L)) [] x T he with h0 | ⟨_, Q₁, Q₂, hQ, hx, hall⟩
  · cases h0
  obtain ⟨P₁, c, P₂, hL, hPQ, hren⟩ := map_split (renamedLabel cm L) hQ
  have hcL : c ∈ L := by
    rw [hL]
    exact List.mem_append_right _ (List.mem_cons_self _ _)
  cases hl : List.lookup c (buildRenameDict cm L) with
  | some T0 =>
      have hx0 : x = T0 := by
        rw [← hren]
        unfold renamedLabel
        rw [hl]
        rfl
      have hct : lookupTarget cm c = some T0 := dict_lookup_target hl
      have hmem : (normalizeLabel c, T0) ∈ cm := lookup_mem hct
      have hT0 : T0 ≠ "Procore Overdue" :=
        fun hPO => hov c hcL (good.1 _ hmem hPO)
      have hself : lookupTarget cm T0 = some T0 := by
        rcases good.2 _ hmem with h | h
        · exact absurd h hT0
        · exact h
      have hTT0 : T = T0 := by
        rw [hx0] at hx
        rw [hx] at hself
        exact Option.some.inj hself
      rw [hx0, hTT0]
  | none =>
      have hxc : x = c := by
        rw [← hren]
        unfold renamedLabel
        rw [hl]
        rfl
      have hct : lookupTarget cm c = some T := hxc ▸ hx
      exfalso
      have hTmem : T ∈ targetsOf (buildRenameDict cm L) := by
        rw [buildRenameDict, renameAux_targets]
        exact Or.inr ⟨c, hcL, hct⟩
      obtain ⟨p, hp, hpT⟩ := List.mem_map.mp hTmem
      obtain ⟨z, T'⟩ := p
      have hT' : T' = T := hpT
      rw [hT'] at hp
      rcases renameAux_first cm L [] z T hp with h0 | ⟨_, R₁, R₂, hR, hzT, hallR⟩
      · cases h0
      have hcR : c ∉ R₁ := fun hcR1 => hallR c hcR1 hct
      rcases two_split (hL.symm.trans hR) hcR with ⟨_, hcz⟩ | hzP
      · rw [hcz] at hl
        rw [dict_lookup_some hp] at hl
        cases hl
      · have hzL : z ∈ L := by
          rw [hR]
          exact List.mem_append_right _ (List.mem_cons_self _ _)
        have hlz : List.lookup z (buildRenameDict cm L) = some T := dict_lookup_some hp
        have hrenz : renamedLabel cm L z = T := by
          unfold renamedLabel
          rw [hlz]
          rfl
        have hmemz : (normalizeLabel z, T) ∈ cm := lookup_mem hzT
        have hTPO : T ≠ "Procore Overdue" :=
          fun hPO => hov z hzL (good.1 _ hmemz hPO)
        have hselfT : lookupTarget cm T = some T := by
          rcases good.2 _ hmemz with h | h
          · exact absurd h hTPO
          · exact h
        have hmemQ : renamedLabel cm L z ∈ Q₁ := by
          rw [← hPQ]
          exact List.mem_map_of_mem _ hzP
        rw [hrenz] at hmemQ
        exact hall T hmemQ hselfT

/-- Re-applying map_columns to its own output is the identity, for a good
column map on a table none of whose labels normalizes to "overdue". -/
theorem map_columns_idem (cm : RenameDict) (good : goodColMap cm) (t : Table)
    (hov : ∀ c ∈ labels t, normalizeLabel c ≠ "overdue") :
    (map_columns (map_columns t cm).1 cm).1 = (map_columns t cm).1 := by
  have hid := second_dict_id cm good (labels t) hov
  rw [← labels_map_columns t cm] at hid
  rw [map_columns_fst ((map_columns t cm).1) cm]
  apply map_eq_self_of_forall
  intro col hcol
  cases hl : List.lookup col.1 (buildRenameDict cm (labels (map_columns t cm).1)) with
  | none => rfl
  | some T =>
      have hxT : col.1 = T := hid (col.1, T) (lookup_mem hl)
      simp only [Option.getD_some]
      rw [← hxT]

-- ============================================================
-- Claim C3
-- ============================================================

/-- C3 counterexample: the duplicate-freedom conjunct of C3 fails at a
concrete input.  Mapping the columns ["current status", "Status"] renames
the first to the canonical "Status" while the second already carries
"Status" literally, yielding two columns with the same canonical name; and
re-application is not a no-op on ["Overdue", "overdue "], because the target
"Procore Overdue" lowercases to a non-key, so the blocked second column is
renamed on the second pass. -/
theorem c3_counterexample :
    labels (map_columns [("current status", ([] : List Cell)), ("Status", [])]
        SUBMITTAL_COL_MAP).1 = ["Status", "Status"] ∧
    (map_columns (map_columns [("Overdue", ([] : List Cell)), ("overdue ", [])]
          SUBMITTAL_COL_MAP).1 SUBMITTAL_COL_MAP).1 ≠
      (map_columns [("Overdue", ([] : List Cell)), ("overdue ", [])] SUBMITTAL_COL_MAP).1 := by
  constructor
  · decide
  · decide

/-- C3 (amended): map_columns never renames two source columns to the same
canonical name (the applied substitutions carry pairwise-distinct targets),
and with either of the repository column maps it is idempotent on every
table none of whose labels strips-and-lowercases to "overdue"; however a
rename may collide with a column that already carries the canonical label
literally, and re-application can rename a previously blocked "overdue"
column (see the counterexample). -/
theorem c3_amended :
    (∀ (t : Table) (cm : RenameDict), (targetsOf (map_columns t cm).2).Nodup) ∧
    (∀ (t : Table) (cm : RenameDict), (cm = SUBMITTAL_COL_MAP ∨ cm = RFI_COL_MAP) →
      (∀ c ∈ labels t, normalizeLabel c ≠ "overdue") →
      (map_columns (map_columns t cm).1 cm).1 = (map_columns t cm).1) := by
  constructor
  · intro t cm
    exact renameAux_targets_nodup cm (labels t) [] (by simp [targetsOf])
  · intro t cm hcm hov
    rcases hcm with rfl | rfl
    · exact map_columns_idem _ goodColMap_submittal t hov
    · exact map_columns_idem _ goodColMap_rfi t hov

/-- Witness for C3 (amended) at a concrete table. -/
theorem c3_amended_witness :
    (targetsOf (map_columns [("Status", ([] : List Cell))] SUBMITTAL_COL_MAP).2).Nodup ∧
    (map_columns (map_columns [("Status", ([] : List Cell))] SUBMITTAL_COL_MAP).1
        SUBMITTAL_COL_MAP).1 = (map_columns [("Status", ([] : List Cell))] SUBMITTAL_COL_MAP).1 :=
  ⟨c3_amended.1 [("Status", [])] SUBMITTAL_COL_MAP,
   c3_amended.2 [("Status", [])] SUBMITTAL_COL_MAP (Or.inl rfl) (by decide)⟩

-- ============================================================
-- Claim C4
-- ============================================================

/-- C4 counterexample: on a table with two columns both labelled "status"
(duplicate labels occur in parsed files), df.rename relabels every
occurrence, so the later duplicate does not keep its original label. -/
theorem c4_counterexample :
    labels (map_columns [("status", ([] : List Cell)), ("status", [])]
        SUBMITTAL_COL_MAP).1 = ["Status", "Status"] ∧ ("Status" : String) ≠ "status" := by
  constructor
  · decide
  · decide

/-- C4 (amended): on a table whose column labels are pairwise distinct,
when several columns map to the same canonical name only the first in
column order is renamed to it and every later one keeps its original label;
column count, order and cell data are preserved, and no two applied
substitutions share a target. -/
theorem c4_amended (t : Table) (cm : RenameDict) (hnd : (labels t).Nodup) :
    (∀ (P₁ : List String) (c : String) (P₂ : List String) (T : String),
        labels t = P₁ ++ c :: P₂ → lookupTarget cm c = some T →
        ((∀ y ∈ P₁, lookupTarget cm y ≠ some T) → renamedLabel cm (labels t) c = T) ∧
        ((∃ y ∈ P₁, lookupTarget cm y = some T) → renamedLabel cm (labels t) c = c)) ∧
    labels (map_columns t cm).1 = (labels t).map (renamedLabel cm (labels t)) ∧
    (map_columns t cm).1.map (fun col => col.2) = t.map (fun col => col.2) ∧
    (targetsOf (map_columns t cm).2).Nodup := by
  refine ⟨?_, labels_map_columns t cm, ?_, ?_⟩
  · intro P₁ c P₂ T hdec hct
    constructor
    · intro hall
      have hmem : (c, T) ∈ buildRenameDict cm (labels t) := by
        rw [hdec]
        exact renameAux_claim cm P₁ c P₂ [] T hct (by simp [targetsOf]) hall
      unfold renamedLabel
      rw [dict_lookup_some hmem]
      rfl
    · rintro ⟨y, hy, hyT⟩
      unfold renamedLabel
      cases hl : List.lookup c (buildRenameDict cm (labels t)) with
      | none => rfl
      | some T2 =>
          exfalso
          have hmem := lookup_mem hl
          have hT2 : lookupTarget cm c = some T2 := (dict_entry_target hmem).2
          have hTT : T2 = T := Option.some.inj (hT2.symm.trans hct)
          rw [hTT] at hmem
          rcases renameAux_first cm (labels t) [] c T hmem with h0 | ⟨_, R₁, R₂, hR, _, hallR⟩
          · cases h0
          have hndR : (R₁ ++ c :: R₂).Nodup := hR ▸ hnd
          have hcR : c ∉ R₁ := by
            rcases List.nodup_append.mp hndR with ⟨_, _, hdisj⟩
            intro hcR1
            exact hdisj hcR1 (List.mem_cons_self _ _)
          have hcP : c ∉ P₁ := by
            have hndP : (P₁ ++ c :: P₂).Nodup := hdec ▸ hnd
            rcases List.nodup_append.mp hndP with ⟨_, _, hdisj⟩
            intro hcP1
            exact hdisj hcP1 (List.mem_cons_self _ _)
          rcases two_split (hdec.symm.trans hR) hcR with ⟨hPR, _⟩ | hcP1
          · exact hallR y (hPR ▸ hy) hyT
          · exact hcP hcP1
  · rw [map_columns_fst, List.map_map]
    rfl
  · exact renameAux_targets_nodup cm (labels t) [] (by simp [targetsOf])

/-- Witness for C4 (amended): with columns ["description", "title"] the
first is renamed to "Title" and the later duplicate keeps its label. -/
theorem c4_amended_witness :
    renamedLabel SUBMITTAL_COL_MAP (labels [("description", ([] : List Cell)), ("title", [])])
        "description" = "Title" ∧
    renamedLabel SUBMITTAL_COL_MAP (labels [("description", ([] : List Cell)), ("title", [])])
        "title" = "title" :=
  ⟨((c4_amended [("description", []), ("title", [])] SUBMITTAL_COL_MAP (by decide)).1
      [] "description" ["title"] "Title" (by decide) (by decide)).1 (by decide),
   ((c4_amended [("description", []), ("title", [])] SUBMITTAL_COL_MAP (by decide)).1
      ["description"] "title" [] "Title" (by decide) (by decide)).2
      ⟨"description", by decide, by decide⟩⟩

-- ============================================================
-- classify_statuses lemmas
-- ============================================================

theorem mem_uniqAux : ∀ (l seen : List Cell) (x : Cell),
    x ∈ uniqAux seen l ↔ x ∈ l ∧ x ∉ seen
  | [], seen, x => by simp [uniqAux]
  | c :: rest, seen, x => by
      unfold uniqAux
      by_cases hc : c ∈ seen
      · rw [if_pos hc, mem_uniqAux rest seen x]
        constructor
        · exact fun h => ⟨List.mem_cons_of_mem _ h.1, h.2⟩
        · rintro ⟨h1, h2⟩
          rcases List.mem_cons.mp h1 with rfl | h1'
          · exact absurd hc h2
          · exact ⟨h1', h2⟩
      · rw [if_neg hc]
        constructor
        · intro h
          rcases List.mem_cons.mp h with rfl | h'
          · exact ⟨List.mem_cons_self _ _, hc⟩
          · rw [mem_uniqAux rest (c :: seen) x] at h'
            exact ⟨List.mem_cons_of_mem _ h'.1,
              fun hx => h'.2 (List.mem_cons_of_mem _ hx)⟩
        · rintro ⟨h1, h2⟩
          rcases List.mem_cons.mp h1 with rfl | h1'
          · exact List.mem_cons_self _ _
          · by_cases hxc : x = c
            · subst hxc
              exact List.mem_cons_self _ _
            · refine List.mem_cons_of_mem _ ?_
              rw [mem_uniqAux rest (c :: seen) x]
              exact ⟨h1', fun hx => by
                rcases List.mem_cons.mp hx with h | h
                · exact hxc h
                · exact h2 h⟩

theorem mem_uniqueList (l : List Cell) (x : Cell) : x ∈ uniqueList l ↔ x ∈ l := by
  rw [uniqueList, mem_uniqAux]
  simp

theorem mem_dropna (l : List Cell) (x : Cell) :
    x ∈ dropnaList l ↔ x ∈ l ∧ x ≠ Cell.na := by
  rw [dropnaList, List.mem_filter]
  simp

theorem classify_foldl (p : Cell → Bool) : ∀ (l : List Cell) (a b : List Cell),
    l.foldl (fun acc s => if p s then (acc.1, acc.2 ++ [s]) else (acc.1 ++ [s], acc.2)) (a, b)
      = (a ++ l.filter (fun s => !p s), b ++ l.filter p)
  | [], a, b => by simp
  | c :: rest, a, b => by
      rw [List.foldl_cons]
      by_cases hc : p c = true
      · rw [if_pos hc]
        rw [classify_foldl p rest a (b ++ [c])]
        rw [List.filter_cons, List.filter_cons, hc]
        simp
      · rw [if_neg hc]
        rw [classify_foldl p rest (a ++ [c]) b]
        rw [List.filter_cons, List.filter_cons]
        have hc' : p c = false := Bool.of_not_eq_true hc
        rw [hc']
        simp

theorem classify_statuses_eq (df : Table) (sv : List Cell)
    (h : getCol df "Status" = some sv) :
    classify_statuses df =
      ((uniqueList (dropnaList sv)).filter (fun s => !statusIsClosed df s),
       (uniqueList (dropnaList sv)).filter (fun s => statusIsClosed df s)) := by
  simp only [classify_statuses, h]
  rw [classify_foldl (statusIsClosed df) (uniqueList (dropnaList sv)) [] []]
  simp

-- ============================================================
-- Claim C5
-- ============================================================

/-- C5: for every table with a Status column, the open and closed lists
returned by classify_statuses partition the distinct non-missing status
values: their union (as a set) is exactly the set of non-missing values
present, and their intersection is empty. -/
theorem c5_partition (df : Table) (sv : List Cell) (h : getCol df "Status" = some sv) :
    (∀ s : Cell, (s ∈ (classify_statuses df).1 ∨ s ∈ (classify_statuses df).2) ↔
        (s ∈ sv ∧ s ≠ Cell.na)) ∧
    (∀ s : Cell, ¬(s ∈ (classify_statuses df).1 ∧ s ∈ (classify_statuses df).2)) := by
  rw [classify_statuses_eq df sv h]
  constructor
  · intro s
    simp only [List.mem_filter, mem_uniqueList, mem_dropna]
    constructor
    · rintro (hs | hs) <;> exact hs.1
    · intro hs
      by_cases hp : statusIsClosed df s = true
      · exact Or.inr ⟨hs, hp⟩
      · exact Or.inl ⟨hs, by simp [Bool.of_not_eq_true hp]⟩
  · rintro s ⟨h1, h2⟩
    simp only [List.mem_filter] at h1 h2
    rw [h2.2] at h1
    exact absurd h1.2 (by decide)

/-- Witness for C5 at a concrete table with one open, one closed and one
missing status. -/
theorem c5_partition_witness :
    ((Cell.str "Open" ∈ (classify_statuses [("Status",
          [Cell.str "Open", Cell.str "Closed", Cell.na])]).1 ∨
      Cell.str "Open" ∈ (classify_statuses [("Status",
          [Cell.str "Open", Cell.str "Closed", Cell.na])]).2) ↔
      (Cell.str "Open" ∈ [Cell.str "Open", Cell.str "Closed", Cell.na] ∧
        Cell.str "Open" ≠ Cell.na)) ∧
    ¬(Cell.na ∈ (classify_statuses [("Status",
          [Cell.str "Open", Cell.str "Closed", Cell.na])]).1 ∧
      Cell.na ∈ (classify_statuses [("Status",
          [Cell.str "Open", Cell.str "Closed", Cell.na])]).2) :=
  ⟨(c5_partition [("Status", [Cell.str "Open", Cell.str "Closed", Cell.na])]
      [Cell.str "Open", Cell.str "Closed", Cell.na] rfl).1 (Cell.str "Open"),
   (c5_partition [("Status", [Cell.str "Open", Cell.str "Closed", Cell.na])]
      [Cell.str "Open", Cell.str "Closed", Cell.na] rfl).2 Cell.na⟩

-- ============================================================
-- Claim C6
-- ============================================================

/-- The per-status classification rule as the specification words it: a
static closed keyword is closed; otherwise a static open keyword is open;
otherwise, when a Date Closed column exists, closed exactly when the
fraction of rows bearing this status with a non-empty close date exceeds
0.7; otherwise open. -/
def specClosed (df : Table) (s : Cell) : Prop :=
  lowerStr (trimStr (cellToStr s)) ∈ KNOWN_CLOSED_STATUSES ∨
  (lowerStr (trimStr (cellToStr s)) ∉ KNOWN_CLOSED_STATUSES ∧
   lowerStr (trimStr (cellToStr s)) ∉ KNOWN_OPEN_STATUSES ∧
   ∃ dc sv, getCol df "Date Closed" = some dc ∧ getCol df "Status" = some sv ∧
     7 * (statusRows sv dc s).length < 10 * closedCount sv dc s)

theorem statusIsClosed_iff (df : Table) (s : Cell) :
    statusIsClosed df s = true ↔ specClosed df s := by
  unfold statusIsClosed specClosed
  by_cases h1 : lowerStr (trimStr (cellToStr s)) ∈ KNOWN_CLOSED_STATUSES
  · simp [h1]
  · by_cases h2 : lowerStr (trimStr (cellToStr s)) ∈ KNOWN_OPEN_STATUSES
    · simp [h1, h2]
    · cases hd : getCol df "Date Closed" with
      | none => simp [h1, h2, hd]
      | some dc =>
          cases hs : getCol df "Status" with
          | none => simp [h1, h2, hd, hs]
          | some sv => simp [h1, h2, hd, hs]

/-- C6: a distinct status lands in the closed list exactly when the
spec rule classifies it closed (and in the open list otherwise); and on the
concrete statuses Approved / Open / Pending Review with no close-date
column, Open and Pending Review are open while Approved is closed. -/
theorem c6_rule :
    (∀ (df : Table) (sv : List Cell) (s : Cell), getCol df "Status" = some sv →
        s ∈ uniqueList (dropnaList sv) →
        ((s ∈ (classify_statuses df).2 ↔ specClosed df s) ∧
         (s ∈ (classify_statuses df).1 ↔ ¬specClosed df s))) ∧
    classify_statuses [("Status",
        [Cell.str "Approved", Cell.str "Open", Cell.str "Pending Review"])]
      = ([Cell.str "Open", Cell.str "Pending Review"], [Cell.str "Approved"]) := by
  constructor
  · intro df sv s hsv hmem
    rw [classify_statuses_eq df sv hsv]
    constructor
    · simp only [List.mem_filter]
      rw [← statusIsClosed_iff]
      constructor
      · exact fun h => h.2
      · exact fun h => ⟨hmem, h⟩
    · simp only [List.mem_filter]
      rw [← statusIsClosed_iff]
      constructor
      · intro h
        rw [Bool.not_eq_true]
        simpa using h.2
      · intro h
        refine ⟨hmem, ?_⟩
        rw [Bool.not_eq_true] at h
        simp [h]
  · decide

/-- Witness for C6 at the concrete three-status table. -/
theorem c6_rule_witness :
    (Cell.str "Approved" ∈ (classify_statuses [("Status",
        [Cell.str "Approved", Cell.str "Open", Cell.str "Pending Review"])]).2 ↔
      specClosed [("Status", [Cell.str "Approved", Cell.str "Open", Cell.str "Pending Review"])]
        (Cell.str "Approved")) :=
  ((c6_rule.1 [("Status", [Cell.str "Approved", Cell.str "Open", Cell.str "Pending Review"])]
      [Cell.str "Approved", Cell.str "Open", Cell.str "Pending Review"]
      (Cell.str "Approved") rfl (by decide))).1

-- ============================================================
-- Claims C8 and C9
-- ============================================================

/-- C8: the name resolver is total (it returns a string on every cell) and
returns exactly "Unknown" on missing, empty, or whitespace-only input. -/
theorem c8_total_unknown :
    (∀ c : Cell, ∃ s : String, extract_companies_from_names c = s) ∧
    (∀ c : Cell, (c = Cell.na ∨ trimStr (cellToStr c) = "") →
      extract_companies_from_names c = "Unknown") := by
  constructor
  · intro c
    exact ⟨_, rfl⟩
  · intro c h
    unfold extract_companies_from_names
    rw [if_pos h]

/-- Witness for C8 on a whitespace-only cell. -/
theorem c8_total_unknown_witness :
    extract_companies_from_names (Cell.str "   ") = "Unknown" :=
  c8_total_unknown.2 (Cell.str "   ") (Or.inr (by decide))

/-- C9: on a table whose only assignment-like column is "Ball in Court"
holding "Trent Eklund", the derived Contractor value is "SMP", and the
static name table indeed carries the exact-match entry. -/
theorem c9_trent_smp :
    getCol (derive_contractor_column [("Ball in Court", [Cell.str "Trent Eklund"])]) "Contractor"
      = some [Cell.str "SMP"] ∧
    List.lookup "trent eklund" EMPLOYEE_COMPANY_MAP = some "SMP" := by
  constructor
  · decide
  · decide

-- ============================================================
-- calculate_overdue lemmas
-- ============================================================

/-- Signal 1 of calculate_overdue, per row. -/
def procoreFlagAt (df : Table) (i : Nat) : Bool :=
  match getCol df "Procore Overdue" with
  | some pv => decide (lowerStr (trimStr (cellToStr (pv.getD i Cell.na))) ∈ YES_VALUES)
  | none => false

/-- The due-date comparison of calculate_overdue on one cell: a present
(parsed) due date strictly before now. -/
def dueCellLt (now : Int) : Cell → Bool
  | Cell.date d => decide (d < now)
  | _ => false

/-- Signal 3 of calculate_overdue, per row. -/
def pastDueAt (df : Table) (now : Int) (i : Nat) : Bool :=
  match getCol df "Due Date" with
  | some dv => dueCellLt now (dv.getD i Cell.na)
  | none => false

theorem calculate_overdue_some (df : Table) (thr now : Int) (opens : List Cell)
    (sv dv : List Cell) (hs : getCol df "Status" = some sv)
    (hd : getCol df "Days Open" = some dv) :
    calculate_overdue df thr opens now = some (setCol df "Is Overdue"
      ((List.range (nRows df)).map (fun i => Cell.bool (
        decide (sv.getD i Cell.na ∈ opens) &&
        (procoreFlagAt df i || cellGtInt (dv.getD i Cell.na) thr || pastDueAt df now i))))) := by
  simp only [calculate_overdue, hs, hd]
  rfl

theorem procoreFlagAt_iff (df : Table) (i : Nat) :
    procoreFlagAt df i = true ↔ ∃ pv, getCol df "Procore Overdue" = some pv ∧
      lowerStr (trimStr (cellToStr (pv.getD i Cell.na))) ∈ YES_VALUES := by
  unfold procoreFlagAt
  cases hp : getCol df "Procore Overdue" with
  | none => simp
  | some pv => simp

theorem dueCellLt_iff (now : Int) (c : Cell) :
    dueCellLt now c = true ↔ ∃ d : Int, c = Cell.date d ∧ d < now := by
  cases c <;> simp [dueCellLt]

theorem pastDueAt_iff (df : Table) (now : Int) (i : Nat) :
    pastDueAt df now i = true ↔ ∃ dv d, getCol df "Due Date" = some dv ∧
      dv.getD i Cell.na = Cell.date d ∧ d < now := by
  unfold pastDueAt
  cases hp : getCol df "Due Date" with
  | none => simp
  | some dv => simp [dueCellLt_iff]

theorem cellGtInt_iff (c : Cell) (t : Int) :
    cellGtInt c t = true ↔ ∃ m : Int, c = Cell.int m ∧ t < m := by
  cases c <;> simp [cellGtInt]

theorem getD_range_map (n i : Nat) (f : Nat → Cell) (h : i < n) :
    ((List.range n).map f).getD i Cell.na = f i := by
  rw [List.getD_eq_getElem?_getD, List.getElem?_map, List.getElem?_range h]
  rfl

-- ============================================================
-- Claim C2
-- ============================================================

/-- C2: after calculate_overdue, a record whose status is not in the
open-status list has Is Overdue = false, whatever the explicit flag, the
days-open value or the due date. -/
theorem c2_closed_not_overdue (df : Table) (thr now : Int) (opens : List Cell)
    (out : Table) (sv ov : List Cell) (i : Nat)
    (hout : calculate_overdue df thr opens now = some out)
    (hs : getCol df "Status" = some sv)
    (hov : getCol out "Is Overdue" = some ov)
    (hi : i < nRows df)
    (hnot : sv.getD i Cell.na ∉ opens) :
    ov.getD i Cell.na = Cell.bool false := by
  cases hd : getCol df "Days Open" with
  | none =>
      simp only [calculate_overdue, hs, hd] at hout
      exact Option.noConfusion hout
  | some dv =>
      rw [calculate_overdue_some df thr now opens sv dv hs hd] at hout
      have hout' := Option.some.inj hout
      subst hout'
      rw [getCol_setCol_self] at hov
      have hlo := Option.some.inj hov
      rw [← hlo, getD_range_map (nRows df) i _ hi]
      show Cell.bool (decide (sv.getD i Cell.na ∈ opens) &&
        (procoreFlagAt df i || cellGtInt (dv.getD i Cell.na) thr || pastDueAt df now i))
        = Cell.bool false
      have hfalse : decide (sv.getD i Cell.na ∈ opens) = false := decide_eq_false hnot
      rw [hfalse, Bool.false_and]

/-- Witness for C2: the "Approved" row of the concrete table is not
overdue even though its days-open exceeds the threshold. -/
theorem c2_closed_not_overdue_witness :
    ([Cell.bool true, Cell.bool false].getD 1 Cell.na) = Cell.bool false :=
  c2_closed_not_overdue
    [("Status", [Cell.str "Open", Cell.str "Approved"]),
     ("Days Open", [Cell.int 20, Cell.int 20])] 14 0
    (classify_statuses [("Status", [Cell.str "Open", Cell.str "Approved"]),
     ("Days Open", [Cell.int 20, Cell.int 20])]).1
    [("Status", [Cell.str "Open", Cell.str "Approved"]),
     ("Days Open", [Cell.int 20, Cell.int 20]),
     ("Is Overdue", [Cell.bool true, Cell.bool false])]
    [Cell.str "Open", Cell.str "Approved"]
    [Cell.bool true, Cell.bool false] 1
    (by decide) (by decide) (by decide) (by decide) (by decide)

-- ============================================================
-- Claim C7
-- ============================================================

/-- C7: each Is Overdue value is the boolean
is-open AND (explicit-flag OR days-open > threshold OR (due-date present
AND before now)), where the flag needs a "Procore Overdue" column whose
row value lowercases into the accepted set, and an absent flag or due-date
column simply drops its disjunct; on the concrete table, the row with
status "Open" and days-open 20 against threshold 14 is overdue and the
"Approved" row is not. -/
theorem c7_overdue_rule :
    (∀ (df : Table) (thr now : Int) (opens : List Cell) (out : Table)
        (sv dv ov : List Cell) (i : Nat),
      calculate_overdue df thr opens now = some out →
      getCol df "Status" = some sv → getCol df "Days Open" = some dv →
      getCol out "Is Overdue" = some ov → i < nRows df →
      ((ov.getD i Cell.na = Cell.bool true ↔
        (sv.getD i Cell.na ∈ opens ∧
          ((∃ pv, getCol df "Procore Overdue" = some pv ∧
              lowerStr (trimStr (cellToStr (pv.getD i Cell.na))) ∈ YES_VALUES) ∨
           (∃ m : Int, dv.getD i Cell.na = Cell.int m ∧ thr < m) ∨
           (∃ duev d, getCol df "Due Date" = some duev ∧
              duev.getD i Cell.na = Cell.date d ∧ d < now)))) ∧
       ∃ b : Bool, ov.getD i Cell.na = Cell.bool b)) ∧
    calculate_overdue [("Status", [Cell.str "Open", Cell.str "Approved"]),
        ("Days Open", [Cell.int 20, Cell.int 20])] 14
      (classify_statuses [("Status", [Cell.str "Open", Cell.str "Approved"]),
        ("Days Open", [Cell.int 20, Cell.int 20])]).1 0
      = some [("Status", [Cell.str "Open", Cell.str "Approved"]),
        ("Days Open", [Cell.int 20, Cell.int 20]),
        ("Is Overdue", [Cell.bool true, Cell.bool false])] := by
  constructor
  · intro df thr now opens out sv dv ov i hout hs hd hov hi
    rw [calculate_overdue_some df thr now opens sv dv hs hd] at hout
    have hout' := Option.some.inj hout
    subst hout'
    rw [getCol_setCol_self] at hov
    have hlo := Option.some.inj hov
    rw [← hlo, getD_range_map (nRows df) i _ hi]
    show (Cell.bool (decide (sv.getD i Cell.na ∈ opens) &&
        (procoreFlagAt df i || cellGtInt (dv.getD i Cell.na) thr || pastDueAt df now i))
        = Cell.bool true ↔ _) ∧ ∃ b : Bool, Cell.bool (decide (sv.getD i Cell.na ∈ opens) &&
        (procoreFlagAt df i || cellGtInt (dv.getD i Cell.na) thr || pastDueAt df now i))
        = Cell.bool b
    constructor
    · rw [Cell.bool.injEq, Bool.and_eq_true, Bool.or_eq_true, Bool.or_eq_true,
        decide_eq_true_eq, procoreFlagAt_iff, cellGtInt_iff, pastDueAt_iff]
      constructor
      · rintro ⟨h1, (h2 | h2) | h2⟩
        · exact ⟨h1, Or.inl h2⟩
        · exact ⟨h1, Or.inr (Or.inl h2)⟩
        · obtain ⟨duev, d, hd1, hd2, hd3⟩ := h2
          exact ⟨h1, Or.inr (Or.inr ⟨duev, d, hd1, hd2, hd3⟩)⟩
      · rintro ⟨h1, h2 | h2 | h2⟩
        · exact ⟨h1, Or.inl (Or.inl h2)⟩
        · exact ⟨h1, Or.inl (Or.inr h2)⟩
        · obtain ⟨duev, d, hd1, hd2, hd3⟩ := h2
          exact ⟨h1, Or.inr ⟨duev, d, hd1, hd2, hd3⟩⟩
    · exact ⟨_, rfl⟩
  · decide

/-- Witness for C7 applying the rule at row 0 of the concrete table. -/
theorem c7_overdue_rule_witness :
    ([Cell.bool true, Cell.bool false].getD 0 Cell.na = Cell.bool true ↔
      (Cell.str "Open" ∈ (classify_statuses [("Status", [Cell.str "Open", Cell.str "Approved"]),
          ("Days Open", [Cell.int 20, Cell.int 20])]).1 ∧
        ((∃ pv, getCol [("Status", [Cell.str "Open", Cell.str "Approved"]),
            ("Days Open", [Cell.int 20, Cell.int 20])] "Procore Overdue" = some pv ∧
            lowerStr (trimStr (cellToStr (pv.getD 0 Cell.na))) ∈ YES_VALUES) ∨
         (∃ m : Int, ([Cell.int 20, Cell.int 20].getD 0 Cell.na) = Cell.int m ∧ (14 : Int) < m) ∨
         (∃ duev d, getCol [("Status", [Cell.str "Open", Cell.str "Approved"]),
            ("Days Open", [Cell.int 20, Cell.int 20])] "Due Date" = some duev ∧
            duev.getD 0 Cell.na = Cell.date d ∧ d < (0 : Int))))) :=
  have h := (c7_overdue_rule.1 [("Status", [Cell.str "Open", Cell.str "Approved"]),
      ("Days Open", [Cell.int 20, Cell.int 20])] 14 0
    (classify_statuses [("Status", [Cell.str "Open", Cell.str "Approved"]),
      ("Days Open", [Cell.int 20, Cell.int 20])]).1
    [("Status", [Cell.str "Open", Cell.str "Approved"]),
      ("Days Open", [Cell.int 20, Cell.int 20]),
      ("Is Overdue", [Cell.bool true, Cell.bool false])]
    [Cell.str "Open", Cell.str "Approved"] [Cell.int 20, Cell.int 20]
    [Cell.bool true, Cell.bool false] 0
    (by decide) (by decide) (by decide) (by decide) (by decide)).1
  h

-- ============================================================
-- Claim C10
-- ============================================================

theorem setCol_not_mem_append (t : Table) (n : String) (v : List Cell)
    (h : n ∉ labels t) : setCol t n v = t ++ [(n, v)] := by
  unfold setCol
  rw [if_neg]
  intro hany
  rw [List.any_eq_true] at hany
  obtain ⟨c, hc, hcn⟩ := hany
  rw [decide_eq_true_eq] at hcn
  exact h (hcn ▸ List.mem_map_of_mem (fun c => c.1) hc)

/-- C10 counterexample: a table that already carries an "Is Overdue"
column has that pre-existing cell overwritten by calculate_overdue. -/
theorem c10_counterexample :
    calculate_overdue [("Status", [Cell.str "Open"]), ("Days Open", [Cell.int 0]),
        ("Is Overdue", [Cell.str "x"])] 5 [] 0
      = some [("Status", [Cell.str "Open"]), ("Days Open", [Cell.int 0]),
        ("Is Overdue", [Cell.bool false])] ∧
    Cell.str "x" ≠ Cell.bool false := by
  constructor
  · decide
  · decide

/-- C10 (amended): on a table with Status and Days Open columns and no
pre-existing "Is Overdue" column, calculate_overdue returns the input
table unchanged (same columns with the same names, values and order) with
a single boolean column "Is Overdue" of one value per row appended at the
end. -/
theorem c10_amended (df : Table) (thr now : Int) (opens : List Cell) (sv dv : List Cell)
    (hs : getCol df "Status" = some sv) (hd : getCol df "Days Open" = some dv)
    (hno : "Is Overdue" ∉ labels df) :
    ∃ ov : List Cell, calculate_overdue df thr opens now = some (df ++ [("Is Overdue", ov)]) ∧
      ov.length = nRows df ∧ ∀ c ∈ ov, ∃ b : Bool, c = Cell.bool b := by
  refine ⟨(List.range (nRows df)).map (fun i => Cell.bool (
      decide (sv.getD i Cell.na ∈ opens) &&
      (procoreFlagAt df i || cellGtInt (dv.getD i Cell.na) thr || pastDueAt df now i))),
    ?_, ?_, ?_⟩
  · rw [calculate_overdue_some df thr now opens sv dv hs hd,
      setCol_not_mem_append df "Is Overdue" _ hno]
  · simp
  · intro c hc
    obtain ⟨i, _, hi⟩ := List.mem_map.mp hc
    exact ⟨_, hi.symm⟩

/-- Witness for C10 (amended) at a concrete two-column table. -/
theorem c10_amended_witness :
    ∃ ov : List Cell,
      calculate_overdue [("Status", [Cell.str "Open"]), ("Days Open", [Cell.int 3])] 5 [] 0
        = some ([("Status", [Cell.str "Open"]), ("Days Open", [Cell.int 3])]
            ++ [("Is Overdue", ov)]) ∧
      ov.length = nRows [("Status", [Cell.str "Open"]), ("Days Open", [Cell.int 3])] ∧
      ∀ c ∈ ov, ∃ b : Bool, c = Cell.bool b :=
  c10_amended [("Status", [Cell.str "Open"]), ("Days Open", [Cell.int 3])] 5 0 []
    [Cell.str "Open"] [Cell.int 3] (by decide) (by decide) (by decide)

-- ============================================================
-- normalize_columns lemmas
-- ============================================================

theorem getCol_bicRemap_ne (t : Table) (name : String) (h : name ≠ "Ball in Court") :
    getCol (bicRemap t) name = getCol t name := by
  cases hb : getCol t "Ball in Court" with
  | none => simp only [bicRemap, hb]
  | some vals =>
      simp only [bicRemap, hb]
      split
      · rfl
      · exact getCol_setCol_ne t "Ball in Court" name _ h

theorem getCol_defaults_foldl (name : String) : ∀ (ds : List (String × String)) (t : Table),
    (∀ p ∈ ds, p.1 ≠ name) →
    getCol (ds.foldl (fun t p => if hasCol t p.1 then t
      else setCol t p.1 (List.replicate (nRows t) (Cell.str p.2))) t) name = getCol t name
  | [], _, _ => rfl
  | d :: ds, t, h => by
      rw [List.foldl_cons]
      rw [getCol_defaults_foldl name ds _ (fun p hp => h p (List.mem_cons_of_mem _ hp))]
      by_cases hc : hasCol t d.1 = true
      · rw [if_pos hc]
      · rw [if_neg hc]
        exact getCol_setCol_ne t d.1 name _ (Ne.symm (h d (List.mem_cons_self _ _)))

theorem defaultsFor_ne_days (itype : String) : ∀ p ∈ defaultsFor itype, p.1 ≠ "Days Open" := by
  unfold defaultsFor
  by_cases h : itype = "submittal"
  · rw [if_pos h]
    decide
  · rw [if_neg h]
    decide

theorem getCol_applyDefaults_days (t : Table) (itype : String) :
    getCol (applyDefaults t itype) "Days Open" = getCol t "Days Open" :=
  getCol_defaults_foldl "Days Open" (defaultsFor itype) t (defaultsFor_ne_days itype)

/-- When the table reaching the days-open step has no Days Open column,
every computed Days Open value is missing or a nonnegative integer (the
computed branch clips at zero, and the no-dates branch writes zeros). -/
theorem computeDaysOpen_nonneg (df : Table) (now : Int)
    (h : getCol df "Days Open" = none) :
    ∀ c ∈ (getCol (computeDaysOpen df now) "Days Open").getD [],
      c = Cell.na ∨ ∃ m : Int, 0 ≤ m ∧ c = Cell.int m := by
  intro c hc
  cases hcr : getCol df "Date Created" with
  | some created =>
      simp only [computeDaysOpen, h, hcr] at hc
      rw [getCol_setCol_self] at hc
      simp only [Option.getD_some] at hc
      obtain ⟨p, hp, hpc⟩ := List.mem_map.mp hc
      obtain ⟨pe, pc⟩ := p
      rw [← hpc]
      cases pe <;> cases pc <;>
        first
        | exact Or.inl rfl
        | exact Or.inr ⟨_, le_max_left 0 _, rfl⟩
  | none =>
      simp only [computeDaysOpen, h, hcr] at hc
      rw [getCol_setCol_self] at hc
      simp only [Option.getD_some] at hc
      rw [List.eq_of_mem_replicate hc]
      exact Or.inr ⟨0, le_refl 0, rfl⟩

-- ============================================================
-- Claim C1
-- ============================================================

/-- C1 counterexample: a source table that itself supplies a "Days Open"
column with the value "-5" keeps the negative value through
normalize_columns (the coercion path does not clip at zero). -/
theorem c1_counterexample :
    getCol (normalize_columns [("Days Open", [Cell.str "-5"])] "submittal" 0) "Days Open"
      = some [Cell.int (-5)] ∧ (-5 : Int) < 0 := by
  constructor
  · decide
  · decide

/-- C1 (amended): when the table reaching the days-open step of
normalize_columns has no "Days Open" column (so the value is computed from
the date columns rather than coerced), every resulting "Days Open" value is
a nonnegative integer, or missing on a row whose creation date is missing;
when the source supplies the column, values are coerced to integers
without clipping and may be negative (see the counterexample). -/
theorem c1_amended (df : Table) (itype : String) (now : Int)
    (h : hasCol (parseDates (derive_contractor_column
        (map_columns df (colMapFor itype)).1)) "Days Open" = false) :
    ∀ c ∈ (getCol (normalize_columns df itype now) "Days Open").getD [],
      c = Cell.na ∨ ∃ m : Int, 0 ≤ m ∧ c = Cell.int m := by
  intro c hc
  have hnone : getCol (parseDates (derive_contractor_column
      (map_columns df (colMapFor itype)).1)) "Days Open" = none := by
    unfold hasCol at h
    cases hg : getCol (parseDates (derive_contractor_column
        (map_columns df (colMapFor itype)).1)) "Days Open" with
    | none => rfl
    | some v =>
        rw [hg] at h
        simp at h
  have heq : normalize_columns df itype now = bicRemap (applyDefaults (computeDaysOpen
      (parseDates (derive_contractor_column (map_columns df (colMapFor itype)).1)) now)
      itype) := rfl
  rw [heq] at hc
  rw [getCol_bicRemap_ne _ _ (by decide)] at hc
  rw [getCol_applyDefaults_days] at hc
  exact computeDaysOpen_nonneg _ now hnone c hc

/-- Witness for C1 (amended): a table with no date and no days column gets
the default value 0, which is a nonnegative integer. -/
theorem c1_amended_witness :
    Cell.int 0 = Cell.na ∨ ∃ m : Int, 0 ≤ m ∧ Cell.int 0 = Cell.int m :=
  c1_amended [("X", [Cell.str "a"])] "submittal" 0 (by decide) (Cell.int 0) (by decide)
